import Mathlib

/-!
Shallow embedding of the Game of Life core from src/src/lib.rs.

Modelling conventions:
- Rust u32 and usize values are modelled as Nat.  No claim concerns u32
  wraparound, and a wasm32 host bounds the byte-sized cell buffer by its
  linear memory, so unbounded naturals are faithful on every state the
  program can hold.
- Vec indexing that would panic out of bounds is modelled with List.getD
  (reads) and List.set (writes, a no-op out of bounds); the claims about
  panic freedom use an Option-valued variant that mirrors the partiality
  exactly.
- js_sys Math.random is an external randomness source; it is modelled as
  an injected oracle rng : Nat -> Cell giving the value of the i-th draw.
- The log! diagnostics in tick have no effect on the state and are omitted.
-/

namespace GoL

/-- Two-valued cell state, repr(u8) with Dead = 0, Alive = 1. -/
inductive Cell where
  | Dead : Cell
  | Alive : Cell
deriving DecidableEq

/-- Numeric value of a cell, the Rust cast `cell as u8`. -/
def Cell.val : Cell → Nat
  | Cell.Dead => 0
  | Cell.Alive => 1

namespace Cells

/-- Cells::new — a vector of width*height dead cells. -/
def new (width height : Nat) : List Cell :=
  (List.range (width * height)).map (fun _ => Cell.Dead)

/-- Cells::new_random — each cell drawn from the injected randomness
oracle, one draw per flat index. -/
def new_random (rng : Nat → Cell) (width height : Nat) : List Cell :=
  (List.range (width * height)).map rng

end Cells

/-- Partiality-precise u32 subtraction: underflow is a panic, modelled
as none. -/
def checkedSub (a b : Nat) : Option Nat :=
  if b ≤ a then some (a - b) else none

/-- Partiality-precise remainder: a zero divisor is a panic, modelled as
none. -/
def checkedMod (a b : Nat) : Option Nat :=
  if b = 0 then none else some (a % b)

/-- The Universe struct: dimensions and the row-major cell buffer. -/
structure Universe where
  width : Nat
  height : Nat
  cells : List Cell

namespace Universe

/-- Universe::new — 64 by 64, all dead. -/
def new : Universe :=
  { width := 64, height := 64, cells := Cells.new 64 64 }

/-- Universe::get_cells — the whole cell buffer. -/
def get_cells (u : Universe) : List Cell :=
  u.cells

/-- Universe::set_width — stores the new width and reallocates the buffer
with Cells::new at the new width and the current height. -/
def set_width (u : Universe) (width : Nat) : Universe :=
  { u with width := width, cells := Cells.new width u.height }

/-- Universe::set_height — stores the new height and reallocates the buffer
with Cells::new at the current width and the new height. -/
def set_height (u : Universe) (height : Nat) : Universe :=
  { u with height := height, cells := Cells.new u.width height }

/-- Universe::get_index — flat row-major index row * width + column. -/
def get_index (u : Universe) (row column : Nat) : Nat :=
  row * u.width + column

/-- Universe::live_neighbour_count — iterates row offsets
[height-1, 0, 1] and column offsets [width-1, 0, 1], skips the offset
pair (0,0), and sums the cell values at the wrapped indices. -/
def live_neighbour_count (u : Universe) (row column : Nat) : Nat :=
  [u.height - 1, 0, 1].foldl (fun count curr_row =>
    [u.width - 1, 0, 1].foldl (fun count curr_col =>
      if curr_row = 0 ∧ curr_col = 0 then
        count
      else
        count + (u.cells.getD
          (u.get_index ((row + curr_row) % u.height)
            ((column + curr_col) % u.width)) Cell.Dead).val) count) 0

/-- Partiality-precise mirror of Universe::live_neighbour_count: the two
u32 subtractions, the two remainders and the vector read are threaded
through Option, returning none exactly where the Rust code panics. -/
def live_neighbour_count_checked (u : Universe) (row column : Nat) :
    Option Nat :=
  (checkedSub u.height 1).bind (fun hm1 =>
    (checkedSub u.width 1).bind (fun wm1 =>
      [hm1, 0, 1].foldlM (fun count curr_row =>
        [wm1, 0, 1].foldlM (fun count curr_col =>
          if curr_row = 0 ∧ curr_col = 0 then
            some count
          else
            (checkedMod (row + curr_row) u.height).bind (fun neighbour_row =>
              (checkedMod (column + curr_col) u.width).bind (fun neighbour_col =>
                (u.cells.get? (u.get_index neighbour_row neighbour_col)).bind
                  (fun c => some (count + c.val))))) count) 0))

/-- The match statement inside Universe::tick, transcribed arm by arm in
source order (guards included). -/
def nextCell (cell : Cell) (live_neighbours : Nat) : Cell :=
  if cell = Cell.Alive ∧ live_neighbours < 2 then Cell.Dead
  else if cell = Cell.Alive ∧ (live_neighbours = 2 ∨ live_neighbours = 3) then Cell.Alive
  else if cell = Cell.Alive ∧ live_neighbours > 3 then Cell.Dead
  else if cell = Cell.Dead ∧ live_neighbours = 3 then Cell.Alive
  else cell

/-- Rule table exactly as the specification lists it, evaluated in the
stated precedence: Alive under 2 dies, Alive at 2 or 3 survives, Alive
over 3 dies, Dead at exactly 3 is born, Dead otherwise stays Dead. -/
def conwaySpec (cell : Cell) (count : Nat) : Cell :=
  match cell with
  | Cell.Alive =>
    if count < 2 then Cell.Dead
    else if count = 2 ∨ count = 3 then Cell.Alive
    else Cell.Dead
  | Cell.Dead => if count = 3 then Cell.Alive else Cell.Dead

/-- The double loop of Universe::tick: starting from a clone of the
current buffer, write the rule result for every (row, col) in row-major
order, reading state and neighbour counts only from the pre-tick buffer. -/
def tickNext (u : Universe) : List Cell :=
  (List.range u.height).foldl (fun next row =>
    (List.range u.width).foldl (fun next col =>
      next.set (u.get_index row col)
        (nextCell (u.cells.getD (u.get_index row col) Cell.Dead)
          (u.live_neighbour_count row col))) next) u.cells

/-- Universe::tick — compute the candidate buffer, then either reseed at
random (when the candidate equals the pre-tick buffer) or adopt it. -/
def tick (u : Universe) (rng : Nat → Cell) : Universe :=
  let next := tickNext u
  if u.cells = next then
    { u with cells := Cells.new_random rng u.width u.height }
  else
    { u with cells := next }

/-- Universe::set_cells — for each (row, col) pair, write Alive at the
unchecked flat index row * width + column. -/
def set_cells (u : Universe) (pairs : List (Nat × Nat)) : Universe :=
  let cs := pairs.foldl (fun cs p => cs.set (u.get_index p.1 p.2) Cell.Alive) u.cells
  { u with cells := cs }

/-- Glyph used by the Display impl: Dead prints a white square, Alive a
black square. -/
def cellGlyph (cell : Cell) : Char :=
  if cell = Cell.Dead then '◻' else '◼'

/-- The chunks iterator of the Display impl: consecutive slices of length
w, the last possibly shorter; the empty slice yields no chunk.  Rust
chunks(0) panics, which no claim exercises; that case returns []. -/
def chunksOf (w : Nat) (l : List Cell) : List (List Cell) :=
  if h : l = [] ∨ w = 0 then []
  else l.take w :: chunksOf w (l.drop w)
termination_by l.length
decreasing_by
  rcases l with _ | ⟨a, l⟩
  · simp at h
  · simp only [List.length_drop, List.length_cons]
    push_neg at h
    omega

/-- Universe::render via the Display impl: one glyph per cell of each
width-sized chunk, a newline after each chunk. -/
def render (u : Universe) : String :=
  String.join ((chunksOf u.width u.cells).map
    (fun line => (line.map cellGlyph).asString ++ "\n"))

/-- Serialization as the specification words it, for comparison with
render: for each row index in order, one glyph per column read at the
row-major flat index, then a newline. -/
def renderSpec (u : Universe) : String :=
  String.join ((List.range u.height).map (fun row =>
    ((List.range u.width).map (fun col =>
      cellGlyph (u.cells.getD (u.get_index row col) Cell.Dead))).asString
    ++ "\n"))

end Universe

/-- States reachable through the public mutator surface: construction,
tick (under any randomness oracle), in-range set_cells, and the two
resize operations. -/
inductive Reachable : Universe → Prop where
  | new : Reachable Universe.new
  | tick {u : Universe} (rng : Nat → Cell) :
      Reachable u → Reachable (u.tick rng)
  | set_cells {u : Universe} (pairs : List (Nat × Nat)) :
      (∀ p ∈ pairs, p.1 < u.height ∧ p.2 < u.width) →
      Reachable u → Reachable (u.set_cells pairs)
  | set_width {u : Universe} (n : Nat) :
      Reachable u → Reachable (u.set_width n)
  | set_height {u : Universe} (n : Nat) :
      Reachable u → Reachable (u.set_height n)

/-- Folding a length-preserving step preserves the list length. -/
lemma foldl_length_invariant {α β : Type} (f : List β → α → List β)
    (hf : ∀ acc x, (f acc x).length = acc.length) :
    ∀ (xs : List α) (l : List β), (xs.foldl f l).length = l.length
  | [], _ => rfl
  | x :: xs, l => by
    rw [List.foldl_cons, foldl_length_invariant f hf xs (f l x), hf]

/-- The candidate buffer of tick has the length of the pre-tick buffer. -/
lemma tickNext_length (u : Universe) :
    u.tickNext.length = u.cells.length := by
  unfold Universe.tickNext
  apply foldl_length_invariant
  intro acc row
  apply foldl_length_invariant
  intro acc col
  exact List.length_set ..

/-- C4: every reachable state satisfies the buffer length invariant
get_cells().length = width() * height(); every mutator preserves it and
the resize operations replace the buffer wholesale. -/
theorem reachable_cells_length {u : Universe} (h : Reachable u) :
    u.get_cells.length = u.width * u.height := by
  induction h with
  | new =>
    simp only [Universe.new, Universe.get_cells, Cells.new, List.length_map,
      List.length_range]
  | tick rng _ ih =>
    simp only [Universe.get_cells, Universe.tick] at *
    split
    · simp [Cells.new_random]
    · rw [tickNext_length]
      exact ih
  | set_cells pairs _ _ ih =>
    simp only [Universe.get_cells, Universe.set_cells] at *
    rw [foldl_length_invariant _ (fun acc p => List.length_set ..)]
    exact ih
  | set_width n _ _ =>
    simp [Universe.get_cells, Universe.set_width, Cells.new]
  | set_height n _ _ =>
    simp [Universe.get_cells, Universe.set_height, Cells.new]

/-- C4 witness: the invariant instantiated at the freshly constructed
Universe. -/
theorem reachable_cells_length_witness :
    Universe.new.get_cells.length = Universe.new.width * Universe.new.height :=
  reachable_cells_length Reachable.new

/-- C2: after the candidate buffer is computed, tick adopts it exactly
when it differs from the pre-tick buffer, and otherwise replaces the
buffer with a fresh random fill at the current dimensions. -/
theorem tick_stagnation_policy (u : Universe) (rng : Nat → Cell) :
    (u.tickNext = u.cells →
      (u.tick rng).cells = Cells.new_random rng u.width u.height)
    ∧ (u.tickNext ≠ u.cells → (u.tick rng).cells = u.tickNext) := by
  constructor
  · intro h
    simp [Universe.tick, h]
  · intro h
    have h' : ¬(u.cells = u.tickNext) := fun hh => h hh.symm
    simp [Universe.tick, if_neg h']

/-- C2 witness: the all-dead 2 by 2 grid is a fixed point of the rule,
so tick reseeds it from the randomness oracle. -/
theorem tick_stagnation_policy_witness :
    ((⟨2, 2, Cells.new 2 2⟩ : Universe).tick (fun _ => Cell.Alive)).cells
      = Cells.new_random (fun _ => Cell.Alive) 2 2 :=
  (tick_stagnation_policy ⟨2, 2, Cells.new 2 2⟩ (fun _ => Cell.Alive)).1 (by decide)

/-- C7: set_width reallocates the buffer as n * height dead cells and
set_height as width * m dead cells, discarding all prior content. -/
theorem resize_resets_to_dead (u : Universe) (n m : Nat)
    (hn : 0 < n) (hm : 0 < m) :
    (u.set_width n).cells.length = n * u.height
    ∧ (∀ c ∈ (u.set_width n).cells, c = Cell.Dead)
    ∧ (u.set_height m).cells.length = u.width * m
    ∧ (∀ c ∈ (u.set_height m).cells, c = Cell.Dead) := by
  refine ⟨?_, ?_, ?_, ?_⟩ <;>
    simp [Universe.set_width, Universe.set_height, Cells.new]

/-- C7 witness: resizing the default Universe to width 3 and height 5. -/
theorem resize_resets_to_dead_witness :
    (Universe.new.set_width 3).cells.length = 3 * Universe.new.height
    ∧ (∀ c ∈ (Universe.new.set_width 3).cells, c = Cell.Dead)
    ∧ (Universe.new.set_height 5).cells.length = Universe.new.width * 5
    ∧ (∀ c ∈ (Universe.new.set_height 5).cells, c = Cell.Dead) :=
  resize_resets_to_dead Universe.new 3 5 (by decide) (by decide)

/-- C5: the code does not reject or clamp an out-of-range pair.  On a
4 by 4 all-dead grid, set_cells [(0, 5)] has column 5 out of range, yet
the call silently turns cell (1, 1) alive through the unchecked flat
index 0 * 4 + 5 = 5, a cell different from the one the caller named. -/
theorem set_cells_out_of_range_corrupts :
    ((⟨4, 4, Cells.new 4 4⟩ : Universe).cells.getD
        ((⟨4, 4, Cells.new 4 4⟩ : Universe).get_index 1 1) Cell.Dead = Cell.Dead)
    ∧ 5 ≥ (⟨4, 4, Cells.new 4 4⟩ : Universe).width
    ∧ (((⟨4, 4, Cells.new 4 4⟩ : Universe).set_cells [(0, 5)]).cells.getD
        ((⟨4, 4, Cells.new 4 4⟩ : Universe).get_index 1 1) Cell.Dead
          = Cell.Alive) := by
  decide

/-- C6: a zero dimension is accepted silently.  set_width 0 stores
width 0 and allocates the empty buffer instead of rejecting the call,
and set_height 0 behaves symmetrically. -/
theorem set_zero_dimension_not_rejected :
    ((⟨4, 4, Cells.new 4 4⟩ : Universe).set_width 0).width = 0
    ∧ ((⟨4, 4, Cells.new 4 4⟩ : Universe).set_width 0).cells = []
    ∧ ((⟨4, 4, Cells.new 4 4⟩ : Universe).set_height 0).height = 0
    ∧ ((⟨4, 4, Cells.new 4 4⟩ : Universe).set_height 0).cells = [] := by
  decide

/-- Writing f i at position i for i over List.range n leaves position j
holding f j when j is written and in bounds, and the initial entry
otherwise. -/
lemma foldl_set_range_getElem? (f : Nat → Cell) :
    ∀ (n : Nat) (l : List Cell) (j : Nat),
      ((List.range n).foldl (fun acc i => acc.set i (f i)) l)[j]?
        = if j < n ∧ j < l.length then some (f j) else l[j]?
  | 0, l, j => by simp
  | n + 1, l, j => by
    rw [List.range_succ, List.foldl_append]
    simp only [List.foldl_cons, List.foldl_nil]
    have hlen : ((List.range n).foldl (fun acc i => acc.set i (f i)) l).length
        = l.length :=
      foldl_length_invariant _ (fun acc x => List.length_set ..) _ _
    rw [List.getElem?_set, hlen]
    by_cases hnj : n = j
    · subst hnj
      by_cases hjl : n < l.length
      · rw [if_pos rfl, if_pos hjl, if_pos ⟨Nat.lt_succ_self n, hjl⟩]
      · rw [if_pos rfl, if_neg hjl, if_neg (fun hc => hjl hc.2)]
        exact (List.getElem?_eq_none (Nat.le_of_not_lt hjl)).symm
    · rw [if_neg hnj, foldl_set_range_getElem? f n l j]
      by_cases hcond : j < n + 1 ∧ j < l.length
      · rw [if_pos hcond, if_pos (show j < n ∧ j < l.length by omega)]
      · rw [if_neg hcond, if_neg (show ¬(j < n ∧ j < l.length) by omega)]

/-- The row-major double write loop coincides with a single pass over the
flat indices of List.range (h * w). -/
lemma nested_foldl_set_eq (g : Nat → Nat → Cell) (w : Nat) (hw : 0 < w) :
    ∀ (h : Nat) (l : List Cell),
      (List.range h).foldl (fun acc row =>
        (List.range w).foldl
          (fun acc col => acc.set (row * w + col) (g row col)) acc) l
      = (List.range (h * w)).foldl
          (fun acc i => acc.set i (g (i / w) (i % w))) l
  | 0, l => by simp
  | h + 1, l => by
    rw [List.range_succ, List.foldl_append, nested_foldl_set_eq g w hw h l]
    simp only [List.foldl_cons, List.foldl_nil]
    rw [Nat.succ_mul, List.range_add, List.foldl_append, List.foldl_map]
    apply List.foldl_ext
    intro acc col hcol
    rw [List.mem_range] at hcol
    have h1 : (h * w + col) / w = h := by
      rw [Nat.add_comm, Nat.add_mul_div_right _ _ hw, Nat.div_eq_of_lt hcol,
        Nat.zero_add]
    have h2 : (h * w + col) % w = col := by
      rw [Nat.add_comm, Nat.add_mul_mod_self_right, Nat.mod_eq_of_lt hcol]
    rw [h1, h2]

/-- In-range coordinates give a flat index inside a h * w buffer. -/
lemma flat_index_lt {w h row col : Nat} (hr : row < h) (hc : col < w) :
    row * w + col < h * w :=
  calc row * w + col < row * w + w := by omega
    _ = (row + 1) * w := by ring
    _ ≤ h * w := Nat.mul_le_mul_right w (Nat.succ_le_of_lt hr)

/-- Pointwise description of the candidate buffer: position (row, col)
holds the transcribed rule applied to the pre-tick cell and its pre-tick
neighbour count. -/
lemma tickNext_getD (u : Universe) (hlen : u.cells.length = u.width * u.height)
    {row col : Nat} (hr : row < u.height) (hc : col < u.width) :
    u.tickNext.getD (u.get_index row col) Cell.Dead
      = Universe.nextCell (u.cells.getD (u.get_index row col) Cell.Dead)
          (u.live_neighbour_count row col) := by
  have hw : 0 < u.width := by omega
  have key := nested_foldl_set_eq
    (fun r c => Universe.nextCell (u.cells.getD (r * u.width + c) Cell.Dead)
      (u.live_neighbour_count r c)) u.width hw u.height u.cells
  have hmain : u.tickNext = (List.range (u.height * u.width)).foldl
      (fun acc i => acc.set i
        ((fun r c => Universe.nextCell (u.cells.getD (r * u.width + c) Cell.Dead)
          (u.live_neighbour_count r c)) (i / u.width) (i % u.width))) u.cells :=
    key
  rw [List.getD_eq_getD_get?, List.get?_eq_getElem?, hmain,
    foldl_set_range_getElem?]
  have hlt : u.get_index row col < u.height * u.width := by
    simp only [Universe.get_index]
    exact flat_index_lt hr hc
  have hltl : u.get_index row col < u.cells.length := by
    rw [hlen, Nat.mul_comm]
    exact hlt
  rw [if_pos ⟨hlt, hltl⟩]
  simp only [Universe.get_index, Option.getD_some]
  have h1 : (row * u.width + col) / u.width = row := by
    rw [Nat.add_comm, Nat.add_mul_div_right _ _ hw, Nat.div_eq_of_lt hc,
      Nat.zero_add]
  have h2 : (row * u.width + col) % u.width = col := by
    rw [Nat.add_comm, Nat.add_mul_mod_self_right, Nat.mod_eq_of_lt hc]
  rw [h1, h2]

/-- The transcribed match agrees with the rule table of the spec. -/
lemma nextCell_eq_conwaySpec (c : Cell) (n : Nat) :
    Universe.nextCell c n = Universe.conwaySpec c n := by
  cases c <;> simp only [Universe.nextCell, Universe.conwaySpec] <;>
    split_ifs <;> simp_all <;> omega

/-- C1: for in-range (row, col), the candidate buffer of tick holds the
rule table of the spec applied to the pre-tick state of that cell and its
pre-tick live-neighbour count; every position is computed from the
pre-tick buffer alone, so the update is neither in-place nor
order-dependent. -/
theorem tick_rule_pointwise (u : Universe) (hw : 0 < u.width)
    (hh : 0 < u.height) (hlen : u.cells.length = u.width * u.height)
    (row col : Nat) (hr : row < u.height) (hc : col < u.width) :
    u.tickNext.getD (u.get_index row col) Cell.Dead
      = Universe.conwaySpec (u.cells.getD (u.get_index row col) Cell.Dead)
          (u.live_neighbour_count row col) := by
  rw [tickNext_getD u hlen hr hc, nextCell_eq_conwaySpec]

/-- C1 witness: the rule applied at cell (0, 2) of the default
Universe. -/
theorem tick_rule_pointwise_witness :
    Universe.new.tickNext.getD (Universe.new.get_index 0 2) Cell.Dead
      = Universe.conwaySpec
          (Universe.new.cells.getD (Universe.new.get_index 0 2) Cell.Dead)
          (Universe.new.live_neighbour_count 0 2) :=
  tick_rule_pointwise Universe.new (by decide) (by decide)
    (by simp only [Universe.new, Cells.new, List.length_map, List.length_range])
    0 2 (by decide) (by decide)

/-- Cell values are at most one. -/
lemma cell_val_le_one (c : Cell) : c.val ≤ 1 := by
  cases c <;> simp [Cell.val]

/-- C3: the count sums the cell values over the eight offset pairs drawn
from rows {height-1, 0, 1} and columns {width-1, 0, 1} modulo the
dimensions, the offset pair (0, 0) excluded; at (0, 0) the flat indices
read are exactly the eight listed ones, pairwise distinct and all
different from the own index of (0, 0); and the count never exceeds 8. -/
theorem live_neighbour_count_toroidal (u : Universe)
    (hw : 3 ≤ u.width) (hh : 3 ≤ u.height) :
    (∀ row col, u.live_neighbour_count row col =
      (([(u.height - 1, u.width - 1), (u.height - 1, 0), (u.height - 1, 1),
         (0, u.width - 1), (0, 1),
         (1, u.width - 1), (1, 0), (1, 1)] : List (Nat × Nat)).map
        (fun p => (u.cells.getD
          (u.get_index ((row + p.1) % u.height) ((col + p.2) % u.width))
          Cell.Dead).val)).sum)
    ∧ u.live_neighbour_count 0 0 =
      (([(u.height - 1) * u.width + (u.width - 1), (u.height - 1) * u.width,
         (u.height - 1) * u.width + 1,
         u.width - 1, 1,
         u.width + (u.width - 1), u.width, u.width + 1] : List Nat).map
        (fun i => (u.cells.getD i Cell.Dead).val)).sum
    ∧ ([(u.height - 1) * u.width + (u.width - 1), (u.height - 1) * u.width,
        (u.height - 1) * u.width + 1,
        u.width - 1, 1,
        u.width + (u.width - 1), u.width, u.width + 1] : List Nat).Pairwise (· ≠ ·)
    ∧ u.get_index 0 0 ∉
      ([(u.height - 1) * u.width + (u.width - 1), (u.height - 1) * u.width,
        (u.height - 1) * u.width + 1,
        u.width - 1, 1,
        u.width + (u.width - 1), u.width, u.width + 1] : List Nat)
    ∧ (∀ row col, u.live_neighbour_count row col ≤ 8) := by
  have hh1 : ¬(u.height - 1 = 0) := by omega
  have hw1 : ¬(u.width - 1 = 0) := by omega
  have hsum : ∀ row col, u.live_neighbour_count row col =
      (([(u.height - 1, u.width - 1), (u.height - 1, 0), (u.height - 1, 1),
         (0, u.width - 1), (0, 1),
         (1, u.width - 1), (1, 0), (1, 1)] : List (Nat × Nat)).map
        (fun p => (u.cells.getD
          (u.get_index ((row + p.1) % u.height) ((col + p.2) % u.width))
          Cell.Dead).val)).sum := by
    intro row col
    simp only [Universe.live_neighbour_count, List.foldl_cons, List.foldl_nil,
      List.map_cons, List.map_nil, List.sum_cons, List.sum_nil, hh1, hw1]
    simp
    omega
  have hmul : 2 * u.width ≤ (u.height - 1) * u.width :=
    Nat.mul_le_mul_right _ (by omega)
  refine ⟨hsum, ?_, ?_, ?_, ?_⟩
  · have m1 : (u.height - 1) % u.height = u.height - 1 :=
      Nat.mod_eq_of_lt (by omega)
    have m2 : (1 : Nat) % u.height = 1 := Nat.mod_eq_of_lt (by omega)
    have m3 : (u.width - 1) % u.width = u.width - 1 :=
      Nat.mod_eq_of_lt (by omega)
    have m4 : (1 : Nat) % u.width = 1 := Nat.mod_eq_of_lt (by omega)
    rw [hsum 0 0]
    simp [Universe.get_index, m1, m2, m3, m4]
  · generalize (u.height - 1) * u.width = t at hmul ⊢
    simp only [List.pairwise_cons, List.mem_cons, List.mem_singleton,
      List.not_mem_nil, or_false, forall_eq_or_imp, forall_eq, ne_eq,
      List.Pairwise.nil, and_true, implies_true, false_implies]
    refine ⟨?_, ?_, ?_, ?_, ?_, ?_, ?_⟩ <;> omega
  · generalize (u.height - 1) * u.width = t at hmul ⊢
    simp only [Universe.get_index, List.mem_cons, List.not_mem_nil, or_false,
      Nat.mul_zero, Nat.zero_mul, Nat.add_zero, Nat.zero_add]
    omega
  · intro row col
    rw [hsum row col]
    have hb : ∀ x ∈ (([(u.height - 1, u.width - 1), (u.height - 1, 0),
        (u.height - 1, 1), (0, u.width - 1), (0, 1),
        (1, u.width - 1), (1, 0), (1, 1)] : List (Nat × Nat)).map
        (fun p => (u.cells.getD
          (u.get_index ((row + p.1) % u.height) ((col + p.2) % u.width))
          Cell.Dead).val)), x ≤ 1 := by
      intro x hx
      rw [List.mem_map] at hx
      obtain ⟨p, _, rfl⟩ := hx
      exact cell_val_le_one _
    simpa using List.sum_le_card_nsmul _ 1 hb

/-- C3 witness: at the default 64 by 64 Universe the count of cell (0, 0)
is at most 8. -/
theorem live_neighbour_count_toroidal_witness :
    (3 ≤ Universe.new.width ∧ 3 ≤ Universe.new.height)
    ∧ Universe.new.live_neighbour_count 0 0 ≤ 8 :=
  ⟨⟨by decide, by decide⟩,
    (live_neighbour_count_toroidal Universe.new (by decide)
      (by decide)).2.2.2.2 0 0⟩

/-- Reading a dropped list is reading the original at an offset. -/
lemma getD_drop (l : List Cell) (n i : Nat) :
    (l.drop n).getD i Cell.Dead = l.getD (n + i) Cell.Dead := by
  simp [List.getD_eq_getD_get?, List.getElem?_drop]

/-- A full-length prefix lists the reads at indices 0..w-1. -/
lemma take_eq_map_range (l : List Cell) (w : Nat) (hw : w ≤ l.length) :
    l.take w = (List.range w).map (fun i => l.getD i Cell.Dead) := by
  apply List.ext_getElem
  · simp [Nat.min_eq_left hw]
  · intro i h1 h2
    have hi : i < l.length := by
      simp only [List.length_take] at h1
      omega
    simp only [List.getElem_take, List.getElem_map, List.getElem_range]
    rw [List.getD_eq_getElem l Cell.Dead hi]

/-- On a buffer of length w * h the chunk iterator yields the h rows of
the row-major layout. -/
lemma chunksOf_eq (w : Nat) (hw : 0 < w) :
    ∀ (h : Nat) (l : List Cell), l.length = w * h →
      Universe.chunksOf w l = (List.range h).map (fun row =>
        (List.range w).map (fun col => l.getD (row * w + col) Cell.Dead))
  | 0, l, hlen => by
    have hnil : l = [] := by
      rw [← List.length_eq_zero, hlen, Nat.mul_zero]
    subst hnil
    rw [Universe.chunksOf]
    simp
  | h + 1, l, hlen => by
    rw [Nat.mul_succ] at hlen
    have hwh : w * h + w = l.length := hlen.symm
    have hne : ¬(l = [] ∨ w = 0) := by
      push_neg
      refine ⟨?_, by omega⟩
      intro he
      rw [he] at hlen
      simp at hlen
      omega
    rw [Universe.chunksOf, dif_neg hne]
    have hdrop : (l.drop w).length = w * h := by
      rw [List.length_drop]
      omega
    rw [chunksOf_eq w hw h (l.drop w) hdrop, List.range_succ_eq_map]
    simp only [List.map_cons, List.map_map]
    congr 1
    · rw [take_eq_map_range l w (by omega)]
      apply List.map_congr_left
      intro col _
      simp
    · apply List.map_congr_left
      intro r _
      simp only [Function.comp]
      apply List.map_congr_left
      intro c _
      rw [getD_drop]
      congr 1
      rw [Nat.succ_eq_add_one]
      ring
    termination_by h => h

/-- C8: render produces, row by row, one glyph per cell at the row-major
index (white square for Dead, black square for Alive) with a newline
after each row, exactly the serialization the spec words; being a pure
function of the buffer and dimensions, repeated calls agree. -/
theorem render_matches_spec (u : Universe) (hw : 0 < u.width)
    (hlen : u.cells.length = u.width * u.height) :
    u.render = u.renderSpec := by
  rw [Universe.render, Universe.renderSpec,
    chunksOf_eq u.width hw u.height u.cells hlen, List.map_map]
  congr 1
  apply List.map_congr_left
  intro row _
  simp [List.map_map, Universe.get_index, Function.comp_def]

/-- C8 witness: a 2 by 1 Universe with one live cell renders as the spec
says. -/
theorem render_matches_spec_witness :
    (⟨2, 1, [Cell.Dead, Cell.Alive]⟩ : Universe).render
      = (⟨2, 1, [Cell.Dead, Cell.Alive]⟩ : Universe).renderSpec :=
  render_matches_spec ⟨2, 1, [Cell.Dead, Cell.Alive]⟩ (by decide) (by decide)

/-- A fold in the Option monad whose step never fails computes the plain
fold. -/
lemma foldlM_option_eq_some {α : Type} (fM : Nat → α → Option Nat)
    (f : Nat → α → Nat) (hf : ∀ acc x, fM acc x = some (f acc x)) :
    ∀ (xs : List α) (acc : Nat), xs.foldlM fM acc = some (xs.foldl f acc)
  | [], _ => rfl
  | x :: xs, acc => by
    rw [List.foldlM_cons, hf acc x]
    show xs.foldlM fM (f acc x) = _
    rw [foldlM_option_eq_some fM f hf xs (f acc x), List.foldl_cons]

/-- C9: under the data-model invariants the checked mirror of
live_neighbour_count never hits a panic: the subtractions are in range,
the divisors are nonzero and every flat index is inside the buffer, so it
returns some of the plain count. -/
theorem live_neighbour_count_total (u : Universe)
    (hw : 1 ≤ u.width) (hh : 1 ≤ u.height)
    (hlen : u.cells.length = u.width * u.height)
    (row col : Nat) (hr : row < u.height) (hc : col < u.width) :
    u.live_neighbour_count_checked row col
      = some (u.live_neighbour_count row col) := by
  have hsub1 : checkedSub u.height 1 = some (u.height - 1) := by
    simp [checkedSub, hh]
  have hsub2 : checkedSub u.width 1 = some (u.width - 1) := by
    simp [checkedSub, hw]
  rw [Universe.live_neighbour_count_checked, hsub1, Option.some_bind, hsub2,
    Option.some_bind, Universe.live_neighbour_count]
  apply foldlM_option_eq_some
  intro acc curr_row
  apply foldlM_option_eq_some
  intro acc2 curr_col
  by_cases hskip : curr_row = 0 ∧ curr_col = 0
  · rw [if_pos hskip, if_pos hskip]
  · rw [if_neg hskip, if_neg hskip]
    have hm1 : checkedMod (row + curr_row) u.height
        = some ((row + curr_row) % u.height) := by
      simp only [checkedMod]
      rw [if_neg (show ¬u.height = 0 by omega)]
    have hm2 : checkedMod (col + curr_col) u.width
        = some ((col + curr_col) % u.width) := by
      simp only [checkedMod]
      rw [if_neg (show ¬u.width = 0 by omega)]
    rw [hm1, Option.some_bind, hm2, Option.some_bind]
    have hidx : u.get_index ((row + curr_row) % u.height)
        ((col + curr_col) % u.width) < u.cells.length := by
      rw [hlen, Nat.mul_comm]
      exact flat_index_lt (Nat.mod_lt _ (by omega)) (Nat.mod_lt _ (by omega))
    rw [List.get?_eq_getElem?, List.getElem?_eq_getElem hidx, Option.some_bind,
      List.getD_eq_getElem u.cells Cell.Dead hidx]

/-- C9 witness: the checked count at (0, 0) of the default Universe
returns some. -/
theorem live_neighbour_count_total_witness :
    Universe.new.live_neighbour_count_checked 0 0
      = some (Universe.new.live_neighbour_count 0 0) :=
  live_neighbour_count_total Universe.new (by decide) (by decide)
    (by simp only [Universe.new, Cells.new, List.length_map, List.length_range])
    0 0 (by decide) (by decide)

/-- C10: tick changes neither dimension, on both branches of the
stagnation check. -/
theorem tick_preserves_dimensions (u : Universe) (rng : Nat → Cell)
    (hw : 0 < u.width) (hh : 0 < u.height) :
    (u.tick rng).width = u.width ∧ (u.tick rng).height = u.height := by
  simp only [Universe.tick]
  split <;> exact ⟨rfl, rfl⟩

/-- C10 witness: dimensions of a 2 by 2 grid survive a tick. -/
theorem tick_preserves_dimensions_witness :
    ((⟨2, 2, Cells.new 2 2⟩ : Universe).tick (fun _ => Cell.Dead)).width
        = (⟨2, 2, Cells.new 2 2⟩ : Universe).width
    ∧ ((⟨2, 2, Cells.new 2 2⟩ : Universe).tick (fun _ => Cell.Dead)).height
        = (⟨2, 2, Cells.new 2 2⟩ : Universe).height :=
  tick_preserves_dimensions ⟨2, 2, Cells.new 2 2⟩ (fun _ => Cell.Dead)
    (by decide) (by decide)

end GoL
